import Mathlib

/-!
Shallow embedding of `httpmon` (src/httpmon.cc), a concurrent HTTP load
generator and monitor.  Latency values (C `double`) are modelled as
rationals; the `uint32_t` counters are modelled as naturals kept below
`2^32` with explicit wraparound; element accesses through iterators are
modelled as `Option`-valued lookups whose `none` branch corresponds to an
out-of-range access (undefined behaviour in the C++ source).
-/

/-- The marker byte (`SpecialRecommendationMarker`), httpmon.cc line 11. -/
def SpecialRecommendationMarker : Nat := 128

/-- Error outcomes of the embedded computations: the `std::logic_error`
thrown by `quartiles` on an empty sample, an out-of-range element access
(undefined behaviour in C++), and an integer division by zero (undefined
behaviour in C++). -/
inductive MonError where
  | emptySample
  | outOfRange
  | divByZero

/-- Iterator dereference `*(a.begin() + i)` with an explicit bounds check: `none` is the
out-of-range branch. -/
def idxAccess (a : List ℚ) (i : Int) : Option ℚ :=
  if 0 ≤ i then a.get? i.toNat else none

/-- The helper `median(begin, end)` from httpmon.cc lines 30-40, over the slice of `a`
delimited by the half-open iterator range `[lo, hi)`.  `int n = end - begin`;
the test `(n-1) % 2 == 0` and the offset `(n-1)/2` use C truncated division
and remainder (`Int.tmod` / `Int.tdiv`). -/
def median (a : List ℚ) (lo hi : Nat) : Option ℚ :=
  let n : Int := (hi : Int) - (lo : Int)
  if (n - 1).tmod 2 = 0 then
    idxAccess a ((lo : Int) + (n - 1).tdiv 2)
  else
    match idxAccess a ((lo : Int) + (n - 1).tdiv 2),
          idxAccess a ((lo : Int) + (n - 1).tdiv 2 + 1) with
    | some x, some y => some ((x + y) / 2)
    | _, _ => none

/-- The function `quartiles(a)` from httpmon.cc lines 42-61: throws on an empty sample,
sorts ascending (`std::sort`), then reads minimum, maximum and the three
medians.  Return order: (minimum, Q1, median, Q3, maximum). -/
def quartiles (a : List ℚ) : Except MonError (ℚ × ℚ × ℚ × ℚ × ℚ) :=
  let n := a.length
  if n < 1 then .error .emptySample
  else
    let s := List.insertionSort (· ≤ ·) a
    match idxAccess s 0, idxAccess s ((n : Int) - 1),
          median s 0 n, median s 0 (n / 2), median s (n / 2) n with
    | some mn, some mx, some med, some q1, some q3 => .ok (mn, q1, med, q3, mx)
    | _, _, _, _, _ => .error .outOfRange

/-- The curl write callback `nullWriter` from httpmon.cc lines 63-70: scans one delivered chunk for
the marker byte and latches the per-request recommendation flag. -/
def nullWriter (chunk : List Nat) (recommendation : Bool) : Bool :=
  if SpecialRecommendationMarker ∈ chunk then true else recommendation

/-- The recommendation flag after a whole response body, delivered as a
sequence of chunks; the flag is reset to `false` before the request
(httpmon.cc line 88) and `nullWriter` is invoked once per chunk. -/
def runBody (chunks : List (List Nat)) : Bool :=
  chunks.foldl (fun r c => nullWriter c r) false

/-- Modulus of the `uint32_t` counters in `HttpClientControl`. -/
def U32 : Nat := 4294967296

/-- The shared aggregation fields of `HttpClientControl` (httpmon.cc lines
13-21): `numErrors` and `numRecommendations` are `uint32_t` (kept below
`U32`, wrapping on increment), `latencies` a growable vector. -/
structure AggState where
  numErrors : Nat
  numRecommendations : Nat
  latencies : List ℚ

/-- The aggregator as initialized in `main` (httpmon.cc lines 150-151) and
as left behind by a drain (lines 191-193). -/
def emptyAgg : AggState := ⟨0, 0, []⟩

/-- One worker outcome publication, the critical section of
`httpClientMain` (httpmon.cc lines 94-101): conditionally bump the two
`uint32_t` counters and append the latency sample. -/
def record (s : AggState) (latency : ℚ) (error recommendation : Bool) : AggState :=
  { numErrors := if error then (s.numErrors + 1) % U32 else s.numErrors
    numRecommendations :=
      if recommendation then (s.numRecommendations + 1) % U32 else s.numRecommendations
    latencies := s.latencies ++ [latency] }

/-- A sequence of `record` calls: each operation is (latency, error flag,
recommendation flag). -/
def applyRecords (s : AggState) (ops : List (ℚ × Bool × Bool)) : AggState :=
  ops.foldl (fun t o => record t o.1 o.2.1 o.2.2) s

/-- The drain-and-reset critical section of the reporter (httpmon.cc lines
184-195): copy all three fields out and clear them together; returns the
reset state and the drained triple (numErrors, numRecommendations,
latencies). -/
def drainAndReset (s : AggState) : AggState × Nat × Nat × List ℚ :=
  (emptyAgg, s.numErrors, s.numRecommendations, s.latencies)

/-- C `double`-to-`int` conversion: truncation toward zero. -/
def ratTrunc (q : ℚ) : Int := if 0 ≤ q then ⌊q⌋ else ⌈q⌉

/-- The data of one printed report line (httpmon.cc lines 202-209). -/
structure Report where
  latencyQuartiles : ℚ × ℚ × ℚ × ℚ × ℚ
  throughput : Int
  recommendationRate : Nat
  numErrors : Nat

/-- One report tick over a drained window (httpmon.cc lines 197-209):
`throughput = (double)latencies.size() / elapsed` truncated to `int`;
`recommendationRate = numRecommendations * 100 / latencies.size()` in
integer arithmetic, which is a division by zero when the window is empty
(the error branch); then `quartiles` over the drained sample. -/
def reportTick (numErrors numRecommendations : Nat) (latencies : List ℚ)
    (elapsed : ℚ) : Except MonError Report :=
  let throughput := ratTrunc ((latencies.length : ℚ) / elapsed)
  if latencies.length = 0 then .error .divByZero
  else
    let recommendationRate := numRecommendations * 100 / latencies.length
    match quartiles latencies with
    | .error e => .error e
    | .ok q => .ok ⟨q, throughput, recommendationRate, numErrors⟩

/-- Result of program startup: either the process exits immediately with
an exit code, or it proceeds and spawns the worker threads. -/
inductive StartupResult where
  | exitWithCode (code : Nat)
  | workersSpawned (count : Int) (url : String) (timeoutSecs : Int)

/-- Startup logic of `main` after command-line parsing (httpmon.cc lines
134-157): if `--help` was given, print usage and exit with code 1;
otherwise — with no validation of the URL or of the concurrency — build
the control structure and spawn `concurrency` worker threads. -/
def startup (helpRequested : Bool) (url : String) (concurrency timeoutSecs : Int) :
    StartupResult :=
  if helpRequested then .exitWithCode 1
  else .workersSpawned concurrency url timeoutSecs

/-- Numeral evaluation helper for C truncated division. -/
theorem int_tdiv_one_two : Int.tdiv 1 2 = 0 := rfl

/-- In-bounds element access: `idxAccess` at a natural index below the
length returns the element. -/
theorem idxAccess_natCast (a : List ℚ) (i : Nat) (h : i < a.length) :
    idxAccess a (i : Int) = some (a.getD i 0) := by
  unfold idxAccess
  rw [if_pos (Int.natCast_nonneg i), Int.toNat_ofNat,
    List.get?_eq_getElem?, List.getElem?_eq_getElem h, List.getD_eq_getElem _ _ h]

/-- Parity bridge for the `(n-1) % 2 == 0` test in `median`. -/
theorem sub_one_mod_two (n : Nat) (h : 1 ≤ n) : (n - 1) % 2 = 0 ↔ n % 2 = 1 := by
  obtain ⟨m, rfl⟩ : ∃ m, n = m + 1 := ⟨n - 1, (Nat.succ_pred_eq_of_pos h).symm⟩
  rw [Nat.add_sub_cancel]
  exact Nat.succ_mod_two_eq_one_iff.symm

/-- The element one past the median offset stays inside the list when the
window has length at least two. -/
theorem median_idx_lt (lo n len : Nat) (h2 : lo + n ≤ len) (hn2 : 2 ≤ n) :
    lo + (n - 1) / 2 + 1 < len := by
  have hpos : 0 < n := Nat.lt_of_lt_of_le Nat.zero_lt_two hn2
  have hsub : 0 < n - 1 := Nat.sub_pos_of_lt hn2
  have hlt2 : (n - 1) / 2 + 1 < n :=
    Nat.lt_of_le_of_lt (Nat.succ_le_of_lt (Nat.div_lt_self hsub Nat.one_lt_two))
      (Nat.sub_lt hpos Nat.one_pos)
  rw [Nat.add_assoc]
  exact Nat.lt_of_lt_of_le (Nat.add_lt_add_left hlt2 lo) h2

/-- The `median` helper on an in-range window of size `n ≥ 1`, expressed
with natural-number index arithmetic: odd windows yield the element at
relative index `(n-1)/2`, even windows the average of the elements at
relative indices `(n-1)/2` and `(n-1)/2 + 1`. -/
theorem median_formula (a : List ℚ) (lo n : Nat) (h1 : 1 ≤ n)
    (h2 : lo + n ≤ a.length) :
    median a lo (lo + n) =
      if n % 2 = 1 then some (a.getD (lo + (n - 1) / 2) 0)
      else some ((a.getD (lo + (n - 1) / 2) 0 + a.getD (lo + (n - 1) / 2 + 1) 0) / 2) := by
  have hpos : 0 < n := h1
  have hcast : ((lo + n : Nat) : Int) - (lo : Int) - 1 = ((n - 1 : Nat) : Int) := by
    rw [Nat.cast_add, add_sub_cancel_left, Nat.cast_sub h1, Nat.cast_one]
  have hm : ((n - 1 : Nat) : Int).tmod 2 = (((n - 1) % 2 : Nat) : Int) := rfl
  have hd : (lo : Int) + ((n - 1 : Nat) : Int).tdiv 2 = ((lo + (n - 1) / 2 : Nat) : Int) := rfl
  have hd1 : ((lo + (n - 1) / 2 : Nat) : Int) + 1 = ((lo + (n - 1) / 2 + 1 : Nat) : Int) := rfl
  have hidx : lo + (n - 1) / 2 < a.length :=
    Nat.lt_of_lt_of_le (Nat.add_lt_add_left
      (Nat.lt_of_le_of_lt (Nat.div_le_self (n - 1) 2) (Nat.sub_lt hpos Nat.one_pos)) lo) h2
  simp only [median, hcast, hm, hd, hd1]
  by_cases hpar : n % 2 = 1
  · have hz : (n - 1) % 2 = 0 := (sub_one_mod_two n h1).mpr hpar
    rw [if_pos (by rw [hz]; rfl), if_pos hpar, idxAccess_natCast a _ hidx]
  · have hzi : ¬ (((n - 1) % 2 : Nat) : Int) = 0 := fun hc =>
      hpar ((sub_one_mod_two n h1).mp (Nat.cast_eq_zero.mp hc))
    have hn2 : 2 ≤ n := Nat.lt_of_le_of_ne h1 (fun h => hpar (by rw [← h]))
    rw [if_neg hzi, if_neg hpar, idxAccess_natCast a _ hidx,
      idxAccess_natCast a _ (median_idx_lt lo n a.length h2 hn2)]

/-- Monotone access into a sorted list. -/
theorem sorted_getD_mono (a : List ℚ) (hs : a.Sorted (· ≤ ·)) (i j : Nat)
    (hij : i ≤ j) (hj : j < a.length) : a.getD i 0 ≤ a.getD j 0 := by
  have hi : i < a.length := Nat.lt_of_le_of_lt hij hj
  rw [List.getD_eq_getElem _ _ hi, List.getD_eq_getElem _ _ hj]
  have := hs.rel_get_of_le (a := ⟨i, hi⟩) (b := ⟨j, hj⟩) hij
  simpa using this

/-- The average of two ordered rationals is at least the smaller one. -/
theorem left_le_avg (x y : ℚ) (h : x ≤ y) : x ≤ (x + y) / 2 := by
  rw [le_div_iff₀ zero_lt_two, mul_two]
  exact add_le_add_left h x

/-- The average of two ordered rationals is at most the larger one. -/
theorem avg_le_right (x y : ℚ) (h : x ≤ y) : (x + y) / 2 ≤ y := by
  rw [div_le_iff₀ zero_lt_two, mul_two]
  exact add_le_add_right h y

/-- The `median` helper on a sorted in-range window of size `n ≥ 1`
returns a value lying between the window elements at relative indices
`(n-1)/2` and `n/2`. -/
theorem median_bounds (a : List ℚ) (hs : a.Sorted (· ≤ ·)) (lo n : Nat)
    (h1 : 1 ≤ n) (h2 : lo + n ≤ a.length) :
    ∃ m, median a lo (lo + n) = some m ∧
      a.getD (lo + (n - 1) / 2) 0 ≤ m ∧ m ≤ a.getD (lo + n / 2) 0 := by
  rw [median_formula a lo n h1 h2]
  by_cases hpar : n % 2 = 1
  · rw [if_pos hpar]
    refine ⟨_, rfl, le_refl _, ?_⟩
    have hdm := Nat.div_add_mod n 2
    rw [hpar] at hdm
    have h4 : n - 1 = 2 * (n / 2) := by
      conv_lhs => rw [← hdm]
      rw [Nat.add_sub_cancel]
    rw [h4, Nat.mul_div_cancel_left _ (by decide)]
  · rw [if_neg hpar]
    have hn2 : 2 ≤ n := Nat.lt_of_le_of_ne h1 (fun h => hpar (by rw [← h]))
    have hev : n % 2 = 0 := (Nat.mod_two_eq_zero_or_one n).resolve_right hpar
    have hk1 : 1 ≤ n / 2 := by
      rw [Nat.le_div_iff_mul_le (by decide), Nat.one_mul]
      exact hn2
    have hadj : lo + (n - 1) / 2 + 1 = lo + n / 2 := by
      obtain ⟨j, hj⟩ : ∃ j, n / 2 = j + 1 := ⟨n / 2 - 1, (Nat.succ_pred_eq_of_pos hk1).symm⟩
      have hdm := Nat.div_add_mod n 2
      rw [hev, Nat.add_zero, hj] at hdm
      have hsub : n - 1 = 2 * j + 1 := by
        rw [← hdm, Nat.mul_succ]
        rfl
      rw [hsub, hj, Nat.mul_add_div (by decide), Nat.div_eq_of_lt (by decide),
        Nat.add_zero, Nat.add_assoc]
    have hxy : a.getD (lo + (n - 1) / 2) 0 ≤ a.getD (lo + (n - 1) / 2 + 1) 0 :=
      sorted_getD_mono a hs _ _ (Nat.le_succ _) (median_idx_lt lo n a.length h2 hn2)
    refine ⟨_, rfl, ?_, ?_⟩
    · exact left_le_avg _ _ hxy
    · rw [← hadj]
      exact avg_le_right _ _ hxy

/-- Introduction rule for a successful `quartiles` computation: the five
component reads determine the result. -/
theorem quartiles_components (a : List ℚ) (h : 1 ≤ a.length)
    {mn mx med q1 q3 : ℚ}
    (hmn : idxAccess (List.insertionSort (· ≤ ·) a) 0 = some mn)
    (hmx : idxAccess (List.insertionSort (· ≤ ·) a) ((a.length : Int) - 1) = some mx)
    (hmed : median (List.insertionSort (· ≤ ·) a) 0 a.length = some med)
    (hq1 : median (List.insertionSort (· ≤ ·) a) 0 (a.length / 2) = some q1)
    (hq3 : median (List.insertionSort (· ≤ ·) a) (a.length / 2) a.length = some q3) :
    quartiles a = .ok (mn, q1, med, q3, mx) := by
  simp only [quartiles]
  rw [if_neg (Nat.not_lt.mpr h), hmn, hmx, hmed, hq1, hq3]

/-- Introduction rule for the out-of-range branch of `quartiles`: if the
Q1 read comes back out of bounds (while the earlier reads succeed), the
computation returns the out-of-range error. -/
theorem quartiles_err_q1 (a : List ℚ) (h : 1 ≤ a.length)
    (mn mx med : ℚ)
    (hmn : idxAccess (List.insertionSort (· ≤ ·) a) 0 = some mn)
    (hmx : idxAccess (List.insertionSort (· ≤ ·) a) ((a.length : Int) - 1) = some mx)
    (hmed : median (List.insertionSort (· ≤ ·) a) 0 a.length = some med)
    (hq1 : median (List.insertionSort (· ≤ ·) a) 0 (a.length / 2) = none) :
    quartiles a = .error .outOfRange := by
  simp only [quartiles]
  rw [if_neg (Nat.not_lt.mpr h), hmn, hmx, hmed, hq1]

/-- Claim C6 (amended): for every sample with at least two elements the
Quantile Estimator succeeds and its five values satisfy
minimum ≤ Q1 ≤ median ≤ Q3 ≤ maximum.  (On a one-element sample the
estimator instead hits the out-of-range branch; see the counterexample
`quartiles_singleton_one_oob`.) -/
theorem quartiles_ordered (a : List ℚ) (h2 : 2 ≤ a.length) :
    ∃ mn q1 med q3 mx, quartiles a = .ok (mn, q1, med, q3, mx) ∧
      mn ≤ q1 ∧ q1 ≤ med ∧ med ≤ q3 ∧ q3 ≤ mx := by
  set n := a.length with hndef
  set s := List.insertionSort (· ≤ ·) a with hsdef
  have hperm := List.perm_insertionSort (· ≤ ·) a
  have hlen : s.length = n := hperm.length_eq
  have hs : s.Sorted (· ≤ ·) := List.sorted_insertionSort (· ≤ ·) a
  have h1n : 1 ≤ n := Nat.le_of_succ_le h2
  have h0 : 0 < n := h1n
  have hub : ∀ k : Nat, k ≤ n - 1 → k < s.length := fun k hk => by
    rw [hlen]
    exact Nat.lt_of_le_of_lt hk (Nat.sub_lt h0 Nat.one_pos)
  have hhalf : n / 2 ≤ n - 1 := Nat.le_sub_one_of_lt (Nat.div_lt_self h0 Nat.one_lt_two)
  have h7 : 1 ≤ n - n / 2 :=
    Nat.le_sub_of_add_le' (Nat.succ_le_of_lt (Nat.div_lt_self h0 Nat.one_lt_two))
  have hq3i : n / 2 + (n - n / 2) = n := Nat.add_sub_cancel' (Nat.div_le_self n 2)
  have hkeq : n / 2 + (n - n / 2 - 1) = n - 1 := by
    rw [← Nat.add_sub_assoc h7, hq3i]
  have hmn : idxAccess s 0 = some (s.getD 0 0) := by
    have h0' : ((0 : Nat) : Int) = (0 : Int) := rfl
    rw [← h0', idxAccess_natCast s 0 (hub 0 (Nat.zero_le _))]
  have hmxc : ((n : Int) - 1) = ((n - 1 : Nat) : Int) := by
    rw [Nat.cast_sub h1n, Nat.cast_one]
  have hmx : idxAccess s ((n : Int) - 1) = some (s.getD (n - 1) 0) := by
    rw [hmxc, idxAccess_natCast s (n - 1) (hub (n - 1) (Nat.le_refl _))]
  obtain ⟨med, hmed, hmedl, hmedu⟩ := median_bounds s hs 0 n h1n
    (by rw [Nat.zero_add, hlen])
  rw [Nat.zero_add] at hmed
  rw [Nat.zero_add] at hmedl
  rw [Nat.zero_add] at hmedu
  obtain ⟨q1, hq1, hq1l, hq1u⟩ := median_bounds s hs 0 (n / 2)
    (by rw [Nat.le_div_iff_mul_le (by decide), Nat.one_mul]; exact h2)
    (by rw [Nat.zero_add, hlen]; exact Nat.div_le_self n 2)
  rw [Nat.zero_add] at hq1
  rw [Nat.zero_add] at hq1l
  rw [Nat.zero_add] at hq1u
  obtain ⟨q3, hq3, hq3l, hq3u⟩ := median_bounds s hs (n / 2) (n - n / 2) h7
    (by rw [hq3i, hlen])
  rw [hq3i] at hq3
  refine ⟨s.getD 0 0, q1, med, q3, s.getD (n - 1) 0, ?_, ?_, ?_, ?_, ?_⟩
  · exact quartiles_components a (by rw [← hndef]; exact h1n) hmn hmx hmed hq1 hq3
  · exact le_trans (sorted_getD_mono s hs 0 ((n / 2 - 1) / 2) (Nat.zero_le _)
      (hub _ (le_trans (Nat.div_le_self _ 2) (le_trans (Nat.sub_le _ 1) hhalf)))) hq1l
  · exact le_trans hq1u (le_trans (sorted_getD_mono s hs (n / 2 / 2) ((n - 1) / 2)
      (Nat.div_le_div_right hhalf) (hub _ (Nat.div_le_self _ 2))) hmedl)
  · exact le_trans hmedu (le_trans (sorted_getD_mono s hs (n / 2) (n / 2 + (n - n / 2 - 1) / 2)
      (Nat.le_add_right _ _)
      (hub _ (le_trans (Nat.add_le_add_left (Nat.div_le_self _ 2) (n / 2))
        (le_of_eq hkeq)))) hq3l)
  · exact le_trans hq3u (sorted_getD_mono s hs (n / 2 + (n - n / 2) / 2) (n - 1)
      (le_trans (Nat.add_le_add_left
        (Nat.le_sub_one_of_lt (Nat.div_lt_self h7 Nat.one_lt_two)) (n / 2))
        (le_of_eq hkeq))
      (hub _ (Nat.le_refl _)))

/-- Folding `nullWriter` over a chunk sequence latches the flag exactly
when the marker occurs in some chunk. -/
theorem runBody_eq (chunks : List (List Nat)) (r : Bool) :
    chunks.foldl (fun acc c => nullWriter c acc) r
      = (r || decide (SpecialRecommendationMarker ∈ chunks.flatten)) := by
  induction chunks generalizing r with
  | nil => simp
  | cons c cs ih =>
    rw [List.foldl_cons, ih]
    unfold nullWriter
    by_cases h : SpecialRecommendationMarker ∈ c
    · simp [h]
    · simp [h]

/-- Running counter fact: after a batch of `record` calls the error
counter holds the initial value plus the number of errored outcomes,
reduced modulo `2^32` (the counter is a `uint32_t`). -/
theorem applyRecords_numErrors (ops : List (ℚ × Bool × Bool)) (s : AggState)
    (hs : s.numErrors < U32) :
    (applyRecords s ops).numErrors = (s.numErrors + ops.countP (fun o => o.2.1)) % U32 := by
  induction ops generalizing s with
  | nil =>
    simp only [applyRecords, List.foldl_nil, List.countP_nil, Nat.add_zero]
    exact (Nat.mod_eq_of_lt hs).symm
  | cons op rest ih =>
    have hstep : applyRecords s (op :: rest) = applyRecords (record s op.1 op.2.1 op.2.2) rest :=
      rfl
    have hlt : (record s op.1 op.2.1 op.2.2).numErrors < U32 := by
      simp only [record]
      by_cases h : op.2.1
      · simp only [h, if_true]
        exact Nat.mod_lt _ (by decide)
      · simpa [h] using hs
    rw [hstep, ih _ hlt, List.countP_cons]
    simp only [record]
    by_cases h : op.2.1
    · simp only [h, if_true]
      rw [Nat.mod_add_mod, Nat.add_assoc, Nat.add_comm 1 _]
    · simp [h]

/-- Running counter fact: after a batch of `record` calls the
recommendation counter holds the initial value plus the number of
signalled outcomes, reduced modulo `2^32`. -/
theorem applyRecords_numRecommendations (ops : List (ℚ × Bool × Bool)) (s : AggState)
    (hs : s.numRecommendations < U32) :
    (applyRecords s ops).numRecommendations
      = (s.numRecommendations + ops.countP (fun o => o.2.2)) % U32 := by
  induction ops generalizing s with
  | nil =>
    simp only [applyRecords, List.foldl_nil, List.countP_nil, Nat.add_zero]
    exact (Nat.mod_eq_of_lt hs).symm
  | cons op rest ih =>
    have hstep : applyRecords s (op :: rest) = applyRecords (record s op.1 op.2.1 op.2.2) rest :=
      rfl
    have hlt : (record s op.1 op.2.1 op.2.2).numRecommendations < U32 := by
      simp only [record]
      by_cases h : op.2.2
      · simp only [h, if_true]
        exact Nat.mod_lt _ (by decide)
      · simpa [h] using hs
    rw [hstep, ih _ hlt, List.countP_cons]
    simp only [record]
    by_cases h : op.2.2
    · simp only [h, if_true]
      rw [Nat.mod_add_mod, Nat.add_assoc, Nat.add_comm 1 _]
    · simp [h]

/-- Running sample fact: every `record` call appends exactly one latency
sample, errored or not. -/
theorem applyRecords_latencies (ops : List (ℚ × Bool × Bool)) (s : AggState) :
    (applyRecords s ops).latencies = s.latencies ++ ops.map (fun o => o.1) := by
  induction ops generalizing s with
  | nil => simp [applyRecords]
  | cons op rest ih =>
    have hstep : applyRecords s (op :: rest) = applyRecords (record s op.1 op.2.1 op.2.2) rest :=
      rfl
    rw [hstep, ih]
    simp [record]

/-- Claim C1: the code does NOT guard the empty-window report tick.  On a
tick whose drained window holds zero outcomes, evaluating the reporter's
computation (httpmon.cc lines 197-199) hits the unguarded integer division
`numRecommendations * 100 / latencies.size()` with a zero divisor: the
embedded tick deterministically returns the division-by-zero error branch
instead of a degenerate report. -/
theorem reportTick_empty_window :
    reportTick 0 0 ([] : List ℚ) 1 = .error .divByZero := rfl

/-- The sample `[1,2,3,4,5]` is already sorted. -/
theorem sorted_12345 : ([1, 2, 3, 4, 5] : List ℚ).Sorted (· ≤ ·) := by
  norm_num [List.sorted_cons]

/-- Sorting the already sorted `[1,2,3,4,5]` leaves it unchanged. -/
theorem insertionSort_12345 :
    List.insertionSort (· ≤ ·) ([1, 2, 3, 4, 5] : List ℚ) = [1, 2, 3, 4, 5] :=
  List.eq_of_perm_of_sorted (List.perm_insertionSort _ _)
    (List.sorted_insertionSort _ _) sorted_12345

/-- Minimum read on the sorted `[1,2,3,4,5]`. -/
theorem idxA_12345_zero : idxAccess ([1, 2, 3, 4, 5] : List ℚ) 0 = some 1 := rfl

/-- Maximum read on the sorted `[1,2,3,4,5]`. -/
theorem idxA_12345_last : idxAccess ([1, 2, 3, 4, 5] : List ℚ) 4 = some 5 := rfl

/-- Whole-range median of `[1,2,3,4,5]`: odd length, middle element. -/
theorem median_12345_whole : median ([1, 2, 3, 4, 5] : List ℚ) 0 5 = some 3 := rfl

/-- Lower-half median of `[1,2,3,4,5]`: the window `[0, 2)` averages 1 and 2. -/
theorem median_12345_low : median ([1, 2, 3, 4, 5] : List ℚ) 0 2 = some (3/2) := by
  simp +decide [median, idxAccess, int_tdiv_one_two]
  norm_num

/-- Upper-half median of `[1,2,3,4,5]`: the window `[2, 5)` has odd length,
its middle element is 4. -/
theorem median_12345_high : median ([1, 2, 3, 4, 5] : List ℚ) 2 5 = some 4 := rfl

/-- Evaluation of `quartiles` on the sorted sample `[1,2,3,4,5]`. -/
theorem quartiles_12345_eval :
    quartiles ([1, 2, 3, 4, 5] : List ℚ) = .ok (1, 3/2, 3, 4, 5) := by
  have h5 : ([1, 2, 3, 4, 5] : List ℚ).length = 5 := rfl
  refine quartiles_components _ (by rw [h5]; decide) ?_ ?_ ?_ ?_ ?_
  · rw [insertionSort_12345]
    exact idxA_12345_zero
  · rw [insertionSort_12345, h5]
    exact idxA_12345_last
  · rw [insertionSort_12345, h5]
    exact median_12345_whole
  · rw [insertionSort_12345, h5]
    exact median_12345_low
  · rw [insertionSort_12345, h5]
    exact median_12345_high

/-- Claim C2 (counterexample): on the sample `[1,2,3,4,5]` the code's Q3 is
the median of the upper half `[3,4,5)`, i.e. `4`, not `4.5` as claimed. -/
theorem quartiles_12345_not_spec_value :
    quartiles ([1, 2, 3, 4, 5] : List ℚ) ≠ .ok (1, 3/2, 3, 9/2, 5) := by
  rw [quartiles_12345_eval]
  intro hc
  injection hc with h
  have h4 : (4 : ℚ) = 9 / 2 := congrArg (fun t => t.2.2.2.1) h
  norm_num at h4

/-- Claim C2 (amended): applied to any arrival order of the five values
`[1,2,3,4,5]`, `quartiles` returns minimum 1, Q1 = 1.5, median 3,
Q3 = 4 (the middle of the upper half `{3,4,5}`), maximum 5. -/
theorem quartiles_of_perm_12345 (l : List ℚ) (h : l.Perm [1, 2, 3, 4, 5]) :
    quartiles l = .ok (1, 3/2, 3, 4, 5) := by
  have hlen : l.length = 5 := h.length_eq
  have hsort : List.insertionSort (· ≤ ·) l = [1, 2, 3, 4, 5] :=
    List.eq_of_perm_of_sorted ((List.perm_insertionSort (· ≤ ·) l).trans h)
      (List.sorted_insertionSort (· ≤ ·) l) sorted_12345
  refine quartiles_components l (by rw [hlen]; decide) ?_ ?_ ?_ ?_ ?_
  · rw [hsort]
    exact idxA_12345_zero
  · rw [hsort, hlen]
    exact idxA_12345_last
  · rw [hsort, hlen]
    exact median_12345_whole
  · rw [hsort, hlen]
    exact median_12345_low
  · rw [hsort, hlen]
    exact median_12345_high

/-- Witness for the amended C2 theorem at a shuffled arrival order. -/
theorem quartiles_of_perm_12345_witness :
    quartiles ([2, 1, 3, 4, 5] : List ℚ) = .ok (1, 3/2, 3, 4, 5) :=
  quartiles_of_perm_12345 [2, 1, 3, 4, 5] (List.Perm.swap 1 2 [3, 4, 5])

/-- Claim C3: over a sorted in-range half-open window of length `n ≥ 1`,
the `median` helper returns the window element at relative index
`(n-1)/2` when `n` is odd, and the average of the window elements at
relative indices `(n-1)/2` and `(n-1)/2 + 1` when `n` is even. -/
theorem median_sorted_window (a : List ℚ) (lo n : Nat) (_hs : a.Sorted (· ≤ ·))
    (h1 : 1 ≤ n) (h2 : lo + n ≤ a.length) :
    median a lo (lo + n) =
      if n % 2 = 1 then some (a.getD (lo + (n - 1) / 2) 0)
      else some ((a.getD (lo + (n - 1) / 2) 0 + a.getD (lo + (n - 1) / 2 + 1) 0) / 2) :=
  median_formula a lo n h1 h2

/-- Witness for the C3 theorem on the sorted window `[1,2,3,4]` (even
length: average of the elements at indices 1 and 2). -/
theorem median_sorted_window_witness :
    ([1, 2, 3, 4] : List ℚ).Sorted (· ≤ ·) ∧
    median ([1, 2, 3, 4] : List ℚ) 0 (0 + 4) =
      (if 4 % 2 = 1 then some (([1, 2, 3, 4] : List ℚ).getD (0 + (4 - 1) / 2) 0)
       else some ((([1, 2, 3, 4] : List ℚ).getD (0 + (4 - 1) / 2) 0 +
         ([1, 2, 3, 4] : List ℚ).getD (0 + (4 - 1) / 2 + 1) 0) / 2)) :=
  ⟨by norm_num [List.sorted_cons],
   median_sorted_window [1, 2, 3, 4] 0 4 (by norm_num [List.sorted_cons])
     (by norm_num) (by norm_num)⟩

/-- Claim C4 (counterexample): the counters are `uint32_t`, so after
`2^32` errored `record` calls the drained error count has wrapped to `0`
and does not equal the number of errored operations. -/
theorem aggregator_uint32_wraparound :
    (drainAndReset (applyRecords emptyAgg (List.replicate U32 ((0:ℚ), true, true)))).2.1
      ≠ (List.replicate U32 ((0:ℚ), true, true)).countP (fun o => o.2.1) := by
  have key : ∀ L : List (ℚ × Bool × Bool),
      (drainAndReset (applyRecords emptyAgg L)).2.1
        = (0 + L.countP (fun o => o.2.1)) % U32 := fun L =>
    applyRecords_numErrors L emptyAgg (by decide)
  rw [key, List.countP_replicate]
  norm_num [U32]

/-- Claim C4 (amended): for every sequence of `record` operations applied
to a drained aggregator, the following drain returns the number of
errored operations and the number of signalled operations each reduced
modulo `2^32` (the counters are `uint32_t`; for fewer than `2^32`
operations this is exact), and a latency sequence of length exactly `N`
(errored outcomes still contribute a sample). -/
theorem aggregator_drain_counts (ops : List (ℚ × Bool × Bool)) :
    (drainAndReset (applyRecords emptyAgg ops)).2.1
        = ops.countP (fun o => o.2.1) % U32 ∧
    (drainAndReset (applyRecords emptyAgg ops)).2.2.1
        = ops.countP (fun o => o.2.2) % U32 ∧
    (drainAndReset (applyRecords emptyAgg ops)).2.2.2.length = ops.length := by
  refine ⟨?_, ?_, ?_⟩
  · show (applyRecords emptyAgg ops).numErrors = _
    rw [applyRecords_numErrors ops emptyAgg (by decide)]
    simp [emptyAgg]
  · show (applyRecords emptyAgg ops).numRecommendations = _
    rw [applyRecords_numRecommendations ops emptyAgg (by decide)]
    simp [emptyAgg]
  · show (applyRecords emptyAgg ops).latencies.length = _
    rw [applyRecords_latencies ops emptyAgg]
    simp [emptyAgg]

/-- Witness for the amended C4 theorem on a concrete three-operation
batch: two errors, one recommendation, three latency samples. -/
theorem aggregator_drain_counts_witness :
    (drainAndReset (applyRecords emptyAgg
        [((1:ℚ), true, false), ((2:ℚ), false, true), ((3:ℚ), true, false)])).2.1
      = [((1:ℚ), true, false), ((2:ℚ), false, true), ((3:ℚ), true, false)].countP
          (fun o => o.2.1) % U32 ∧
    (drainAndReset (applyRecords emptyAgg
        [((1:ℚ), true, false), ((2:ℚ), false, true), ((3:ℚ), true, false)])).2.2.1
      = [((1:ℚ), true, false), ((2:ℚ), false, true), ((3:ℚ), true, false)].countP
          (fun o => o.2.2) % U32 ∧
    (drainAndReset (applyRecords emptyAgg
        [((1:ℚ), true, false), ((2:ℚ), false, true), ((3:ℚ), true, false)])).2.2.2.length
      = [((1:ℚ), true, false), ((2:ℚ), false, true), ((3:ℚ), true, false)].length :=
  aggregator_drain_counts [((1:ℚ), true, false), ((2:ℚ), false, true), ((3:ℚ), true, false)]

/-- Claim C5: the per-request recommendation flag, initialized to `false`
and fed every delivered chunk through `nullWriter`, ends up `true` exactly
when some byte of the full body equals the marker value 128, and once a
prefix of the chunk sequence has set it, the full sequence keeps it. -/
theorem nullWriter_signal (chunks : List (List Nat)) :
    (runBody chunks = true ↔ SpecialRecommendationMarker ∈ chunks.flatten) ∧
    ∀ pre suf, chunks = pre ++ suf → runBody pre = true → runBody chunks = true := by
  constructor
  · unfold runBody
    rw [runBody_eq]
    simp
  · intro pre suf hps hpre
    unfold runBody at hpre ⊢
    rw [runBody_eq] at hpre ⊢
    have hm : SpecialRecommendationMarker ∈ pre.flatten := by simpa using hpre
    subst hps
    simp [List.flatten_append, hm]

/-- Witness for the C5 theorem: a body whose marker byte arrives only in
the second chunk is flagged. -/
theorem nullWriter_signal_witness :
    runBody [[1, 2], [128, 3], [7]] = true :=
  (nullWriter_signal [[1, 2], [128, 3], [7]]).1.mpr (by decide)

/-- Claim C6 (counterexample): on the non-empty one-element sample `[1]`
the Q1 computation reads one past the end of the sample — under the total
embedding `quartiles` hits the out-of-range error branch and returns no
five values at all, so the claimed ordering chain cannot be formed. -/
theorem quartiles_singleton_one_oob :
    quartiles [(1 : ℚ)] = .error .outOfRange := by
  exact quartiles_err_q1 [(1 : ℚ)] (by decide) 1 1 1 rfl rfl rfl rfl

/-- Witness for the amended C6 theorem at the concrete sample `[3, 1]`. -/
theorem quartiles_ordered_witness :
    2 ≤ ([3, 1] : List ℚ).length ∧
    ∃ mn q1 med q3 mx, quartiles ([3, 1] : List ℚ) = .ok (mn, q1, med, q3, mx) ∧
      mn ≤ q1 ∧ q1 ≤ med ∧ med ≤ q3 ∧ q3 ≤ mx :=
  ⟨by decide, quartiles_ordered [3, 1] (by decide)⟩

/-- Claim C7: `drainAndReset` clears all three fields together — the state
it leaves behind is exactly the empty aggregator — and a second drain with
no intervening `record` both returns the zero/empty triple and leaves the
empty state again. -/
theorem drainAndReset_resets_together (s : AggState) :
    (drainAndReset s).1 = emptyAgg ∧
    drainAndReset (drainAndReset s).1 = (emptyAgg, 0, 0, ([] : List ℚ)) :=
  ⟨rfl, rfl⟩

/-- Witness for the C7 theorem at a concrete dirty aggregator state. -/
theorem drainAndReset_resets_together_witness :
    (drainAndReset (⟨7, 8, [(5:ℚ)]⟩ : AggState)).1 = emptyAgg ∧
    drainAndReset (drainAndReset (⟨7, 8, [(5:ℚ)]⟩ : AggState)).1
      = (emptyAgg, 0, 0, ([] : List ℚ)) :=
  drainAndReset_resets_together ⟨7, 8, [(5:ℚ)]⟩

/-- Claim C8: `quartiles` applied to the empty sample deterministically
signals the empty-sample error (`throw std::logic_error`, httpmon.cc
lines 48-50) rather than returning a value. -/
theorem quartiles_empty_sample :
    quartiles ([] : List ℚ) = .error .emptySample := rfl

/-- Claim C9 (counterexample): with `--help` absent, a missing (empty) URL
and a non-positive concurrency, startup does not exit — it proceeds to
spawn the (zero) worker threads, contradicting the claimed fatal
configuration check. -/
theorem startup_missing_url_proceeds :
    startup false "" 0 9 = .workersSpawned 0 "" 9 := rfl

/-- Claim C9 (amended): `--help` exits with code 1; nothing else is
validated at startup — for every URL (including the missing/empty one)
and every concurrency (including non-positive values), the process
proceeds to spawn `concurrency` workers. -/
theorem startup_no_validation (url : String) (concurrency timeoutSecs : Int) :
    startup true url concurrency timeoutSecs = .exitWithCode 1 ∧
    startup false url concurrency timeoutSecs
      = .workersSpawned concurrency url timeoutSecs :=
  ⟨rfl, rfl⟩

/-- Witness for the amended C9 theorem at a concrete configuration with a
non-positive concurrency. -/
theorem startup_no_validation_witness :
    startup true "http:/x" (-3) 9 = .exitWithCode 1 ∧
    startup false "http:/x" (-3) 9 = .workersSpawned (-3) "http:/x" 9 :=
  startup_no_validation "http:/x" (-3) 9

/-- Claim C10: on a one-element sample the Quantile Estimator does NOT
stay in bounds: the Q1 computation takes the median of the empty first
half `[0, 0)`, whose even-length branch reads relative indices 0 and 1 of
that empty window — index 1 is one past the end of the sample, so the
total embedding hits the out-of-range error branch. -/
theorem quartiles_singleton_reads_oob :
    quartiles [(0 : ℚ)] = .error .outOfRange := by
  exact quartiles_err_q1 [(0 : ℚ)] (by decide) 0 0 0 rfl rfl rfl rfl
